import Mathlib

/-!
SDL audio renderer: the adaptive playout controller.

A shallow embedding of `app/streaming/audio/renderers/sdlaud.cpp`
(`SdlAudioRenderer`): the constructor, `prepareForPlayback` and `submitAudio`.

* Unsigned 32-bit members and locals are `Nat` values; every arithmetic
  operation of the source that can leave the 32-bit range is written with an
  explicit reduction modulo `2^32`.
* The audio device is the environment: each call of `SDL_GetQueuedAudioSize`
  is an input (a reading), and what `submitAudio` does with the frame is its
  `Outcome`.
* An integer division by zero has no defined result; it is `none`.
-/

namespace SdlAudio

/-! ## Constants (`sdlaud.cpp`, lines 9-12) -/

def MIN_QUEUED_FRAMES : Nat := 2
def MAX_QUEUED_FRAMES : Nat := 4
def STOP_THE_WORLD_LIMIT : Nat := 20
def DROP_RATIO_DENOM : Nat := 32

/-- The number of values of a `Uint32`, `2^32`. -/
def U32 : Nat := 4294967296

/-- Subtraction of two `Uint32` values, as the machine computes it. -/
def sub32 (a b : Nat) : Nat := (U32 + a - b % U32) % U32

/-- Addition of two `Uint32` values, as the machine computes it. -/
def add32 (a b : Nat) : Nat := (a + b) % U32

/-! ## State -/

/-- The members of `SdlAudioRenderer`, the six that the constructor initialises
(lines 75-80). Their declarations are in `sdl.h`, outside the sources at hand;
the source fixes their width all the same: `m_BaselinePendingData` is passed to
`qMax` together with the `Uint32` result of `SDL_GetQueuedAudioSize`, the
counters are compared with and assigned from the `Uint32` local `framesQueued`,
and the comments of lines 168-174 guard their subtractions against unsigned
underflow. Every member is an unsigned 32-bit integer. -/
structure SdlAudioRenderer where
  m_AudioDevice : Nat
  m_ChannelCount : Nat
  m_PendingDrops : Nat
  m_PendingHardDrops : Nat
  m_SampleIndex : Nat
  m_BaselinePendingData : Nat
deriving DecidableEq

/-- Every member holds a `Uint32` value. -/
def SdlAudioRenderer.InRange (r : SdlAudioRenderer) : Prop :=
  r.m_AudioDevice < U32 ∧ r.m_ChannelCount < U32 ∧ r.m_PendingDrops < U32 ∧
  r.m_PendingHardDrops < U32 ∧ r.m_SampleIndex < U32 ∧ r.m_BaselinePendingData < U32

/-- The constructor `SdlAudioRenderer::SdlAudioRenderer()` (lines 74-81): every
member starts at zero. -/
def SdlAudioRenderer.new : SdlAudioRenderer :=
  { m_AudioDevice := 0, m_ChannelCount := 0, m_PendingDrops := 0,
    m_PendingHardDrops := 0, m_SampleIndex := 0, m_BaselinePendingData := 0 }

/-! ## prepareForPlayback (lines 91-140) -/

/-- The readings of `SDL_GetQueuedAudioSize` taken by the calibration loop
(lines 121-126): one hundred under `Q_OS_WIN32`, the `i`-th being `idle i`, and
none on any other platform. -/
def calibrationWindow (win32 : Bool) (idle : Nat → Nat) : List Nat :=
  if win32 then (List.range 100).map idle else []

/-- Lines 120-127: the baseline starts at zero, takes the `qMax` with every
reading of the window, and is then doubled in 32 bits. -/
def calibrate (readings : List Nat) : Nat :=
  (readings.foldl (fun baseline q => max baseline q) 0 * 2) % U32

/-- The function `prepareForPlayback`. `device` is the result of
`SDL_OpenAudioDevice` (zero on failure) and `channelCount` is
`opusConfig->channelCount`. The result pairs the new state with the returned
`bool`. -/
def prepareForPlayback (r : SdlAudioRenderer) (device channelCount : Nat)
    (win32 : Bool) (idle : Nat → Nat) : SdlAudioRenderer × Bool :=
  let r := { r with m_AudioDevice := device }
  if device = 0 then (r, false)
  else
    let r := { r with m_BaselinePendingData := calibrate (calibrationWindow win32 idle) }
    ({ r with m_ChannelCount := channelCount, m_SampleIndex := 0,
              m_PendingDrops := 0, m_PendingHardDrops := 0 }, true)

/-! ## submitAudio (lines 154-208) -/

/-- What one call of `submitAudio` does with its frame: it returns at line 194
(hard drop), returns at line 200 (soft drop), or reaches `SDL_QueueAudio` at
line 203. -/
inductive Outcome where
  | hardDrop
  | softDrop
  | queueAudio
deriving DecidableEq

/-- Number of `SDL_QueueAudio` calls issued by a `submitAudio` call. -/
def Outcome.sinkWrites : Outcome → Nat
  | .hardDrop => 0
  | .softDrop => 0
  | .queueAudio => 1

/-- The divisor of line 166, `SAMPLES_PER_FRAME * m_ChannelCount * sizeof(short)`.
`SAMPLES_PER_FRAME` is defined outside the sources at hand and is the parameter
`spf`. The product with the 32-bit channel count is taken in 32 bits and the
product with `sizeof(short) = 2` in the 64 bits of `size_t`, where it cannot
wrap. -/
def bytesPerFrame (spf channelCount : Nat) : Nat :=
  (spf * channelCount) % U32 * 2

/-- Lines 158-164: the reading less the baseline, floored at zero. -/
def adjustQueued (r : SdlAudioRenderer) (reading : Nat) : Nat :=
  if reading > r.m_BaselinePendingData then reading - r.m_BaselinePendingData else 0

/-- Line 166: the frame count of a reading; undefined when the divisor is zero. -/
def framesQueuedOf (spf : Nat) (r : SdlAudioRenderer) (reading : Nat) : Option Nat :=
  if bytesPerFrame spf r.m_ChannelCount = 0 then none
  else some (adjustQueued r reading / bytesPerFrame spf r.m_ChannelCount)

/-- Lines 170-187: the scheduling `if / else if / else if`. -/
def schedule (r : SdlAudioRenderer) (framesQueued : Nat) : SdlAudioRenderer :=
  if framesQueued ≤ MIN_QUEUED_FRAMES then
    { r with m_PendingDrops := 0, m_PendingHardDrops := 0 }
  else if framesQueued > r.m_PendingHardDrops ∧
      sub32 framesQueued r.m_PendingHardDrops > STOP_THE_WORLD_LIMIT then
    { r with m_PendingHardDrops := sub32 framesQueued MIN_QUEUED_FRAMES }
  else if framesQueued > add32 r.m_PendingHardDrops r.m_PendingDrops ∧
      sub32 (sub32 framesQueued r.m_PendingHardDrops) r.m_PendingDrops > MAX_QUEUED_FRAMES then
    { r with m_PendingDrops := sub32 framesQueued MIN_QUEUED_FRAMES }
  else r

/-- Lines 189-207: the drop decision. A failure of `SDL_QueueAudio` is only
logged, so the outcome `queueAudio` records that the call was issued. -/
def execute (r : SdlAudioRenderer) : SdlAudioRenderer × Outcome :=
  if r.m_PendingHardDrops ≠ 0 then
    ({ r with m_PendingHardDrops := sub32 r.m_PendingHardDrops 1 }, .hardDrop)
  else if r.m_PendingDrops ≠ 0 ∧ r.m_SampleIndex % DROP_RATIO_DENOM = 0 then
    ({ r with m_PendingDrops := sub32 r.m_PendingDrops 1 }, .softDrop)
  else (r, .queueAudio)

/-- Line 156: `m_SampleIndex++` in 32 bits. -/
def bumpSampleIndex (r : SdlAudioRenderer) : SdlAudioRenderer :=
  { r with m_SampleIndex := (r.m_SampleIndex + 1) % U32 }

/-- The function `submitAudio`; `reading` is what `SDL_GetQueuedAudioSize`
returns at line 158. -/
def submitAudio (spf : Nat) (r : SdlAudioRenderer) (reading : Nat) :
    Option (SdlAudioRenderer × Outcome) :=
  let r := bumpSampleIndex r
  match framesQueuedOf spf r reading with
  | none => none
  | some framesQueued => some (execute (schedule r framesQueued))

/-- Consecutive `submitAudio` calls, one per reading: the state and outcome
after each call, in order. -/
def submitAll (spf : Nat) : SdlAudioRenderer → List Nat → Option (List (SdlAudioRenderer × Outcome))
  | _, [] => some []
  | r, q :: qs =>
    match submitAudio spf r q with
    | none => none
    | some (r1, o) =>
      match submitAll spf r1 qs with
      | none => none
      | some rest => some ((r1, o) :: rest)

/-! ## The guarded arithmetic of submitAudio -/

/-- An unsigned 32-bit operation together with the operands it is evaluated on. -/
inductive ArithOp where
  | sub (a b : Nat)
  | add (a b : Nat)
deriving DecidableEq

/-- The exact integer result leaves the range `0 .. 2^32 - 1`. -/
def ArithOp.wraps : ArithOp → Bool
  | .sub a b => decide (a < b)
  | .add a b => decide (U32 ≤ a + b)

/-- The operations of the third condition and its branch (lines 184-186);
`&&` evaluates its right operand only when the left one holds. -/
def gracefulOps (r : SdlAudioRenderer) (framesQueued : Nat) : List ArithOp :=
  if framesQueued > add32 r.m_PendingHardDrops r.m_PendingDrops then
    if sub32 (sub32 framesQueued r.m_PendingHardDrops) r.m_PendingDrops > MAX_QUEUED_FRAMES then
      [.add r.m_PendingHardDrops r.m_PendingDrops,
       .sub framesQueued r.m_PendingHardDrops,
       .sub (sub32 framesQueued r.m_PendingHardDrops) r.m_PendingDrops,
       .sub framesQueued MIN_QUEUED_FRAMES]
    else
      [.add r.m_PendingHardDrops r.m_PendingDrops,
       .sub framesQueued r.m_PendingHardDrops,
       .sub (sub32 framesQueued r.m_PendingHardDrops) r.m_PendingDrops]
  else [.add r.m_PendingHardDrops r.m_PendingDrops]

/-- The subtractions and additions evaluated by lines 170-187, in evaluation
order. -/
def scheduleOps (r : SdlAudioRenderer) (framesQueued : Nat) : List ArithOp :=
  if framesQueued ≤ MIN_QUEUED_FRAMES then []
  else if framesQueued > r.m_PendingHardDrops then
    if sub32 framesQueued r.m_PendingHardDrops > STOP_THE_WORLD_LIMIT then
      [.sub framesQueued r.m_PendingHardDrops, .sub framesQueued MIN_QUEUED_FRAMES]
    else
      .sub framesQueued r.m_PendingHardDrops :: gracefulOps r framesQueued
  else gracefulOps r framesQueued

/-- The decrements evaluated by lines 190-201. -/
def executeOps (r : SdlAudioRenderer) : List ArithOp :=
  if r.m_PendingHardDrops ≠ 0 then [.sub r.m_PendingHardDrops 1]
  else if r.m_PendingDrops ≠ 0 ∧ r.m_SampleIndex % DROP_RATIO_DENOM = 0 then
    [.sub r.m_PendingDrops 1]
  else []

/-- The counter arithmetic evaluated by one `submitAudio` call (lines 170-201). -/
def submitAudioOps (spf : Nat) (r : SdlAudioRenderer) (reading : Nat) : List ArithOp :=
  let r := bumpSampleIndex r
  match framesQueuedOf spf r reading with
  | none => []
  | some framesQueued => scheduleOps r framesQueued ++ executeOps (schedule r framesQueued)

/-- Every counter operation evaluated by consecutive `submitAudio` calls. -/
def submitAllOps (spf : Nat) : SdlAudioRenderer → List Nat → List ArithOp
  | _, [] => []
  | r, q :: qs =>
    submitAudioOps spf r q ++
      (match submitAudio spf r q with
       | none => []
       | some (r1, _) => submitAllOps spf r1 qs)

/-! ## Auxiliary definitions for the proofs -/

/-- Lines 156 and 170-207 of `submitAudio` as a function of the frame count
computed at line 166. -/
def submitFrames (r : SdlAudioRenderer) (framesQueued : Nat) : SdlAudioRenderer × Outcome :=
  execute (schedule (bumpSampleIndex r) framesQueued)

/-- Consecutive calls given the frame count each one computes. -/
def submitFramesAll : SdlAudioRenderer → List Nat → List (SdlAudioRenderer × Outcome)
  | _, [] => []
  | r, f :: fs => submitFrames r f :: submitFramesAll (submitFrames r f).1 fs

/-- Frame counts of a backlog that starts at `top` and falls by one frame on
each of `n` calls. -/
def fallingBacklog : Nat → Nat → List Nat
  | _, 0 => []
  | top, n + 1 => top :: fallingBacklog (top - 1) n

/-- Number of calls of a run that dropped their frame through the soft path. -/
def softDrops (trace : List (SdlAudioRenderer × Outcome)) : Nat :=
  (trace.filter (fun e => decide (e.2 = Outcome.softDrop))).length

/-- Number of calls of a run that dropped their frame. -/
def drops (trace : List (SdlAudioRenderer × Outcome)) : Nat :=
  (trace.filter (fun e => decide (e.2 ≠ Outcome.queueAudio))).length

/-- The state with the given counters and sample index and every other member
zero. -/
def ofCounters (pendingDrops pendingHardDrops sampleIndex : Nat) : SdlAudioRenderer :=
  { m_AudioDevice := 0, m_ChannelCount := 0, m_PendingDrops := pendingDrops,
    m_PendingHardDrops := pendingHardDrops, m_SampleIndex := sampleIndex,
    m_BaselinePendingData := 0 }

/-- What a call leaves behind: pending drops, pending hard drops, sample index
and outcome. -/
def summary (e : SdlAudioRenderer × Outcome) : Nat × Nat × Nat × Outcome :=
  (e.1.m_PendingDrops, e.1.m_PendingHardDrops, e.1.m_SampleIndex, e.2)

/-- A prepared stereo controller used by the concrete instances below: device 1,
two channels, no baseline, counters and sample index zero. -/
def stereo : SdlAudioRenderer :=
  { m_AudioDevice := 1, m_ChannelCount := 2, m_PendingDrops := 0,
    m_PendingHardDrops := 0, m_SampleIndex := 0, m_BaselinePendingData := 0 }

/-! ## Basic facts -/

theorem framesQueuedOf_congr (spf : Nat) (r r1 : SdlAudioRenderer) (q : Nat)
    (hc : r1.m_ChannelCount = r.m_ChannelCount)
    (hb : r1.m_BaselinePendingData = r.m_BaselinePendingData) :
    framesQueuedOf spf r1 q = framesQueuedOf spf r q := by
  simp [framesQueuedOf, adjustQueued, hc, hb]

theorem schedule_config (r : SdlAudioRenderer) (f : Nat) :
    (schedule r f).m_ChannelCount = r.m_ChannelCount ∧
    (schedule r f).m_BaselinePendingData = r.m_BaselinePendingData ∧
    (schedule r f).m_SampleIndex = r.m_SampleIndex ∧
    (schedule r f).m_AudioDevice = r.m_AudioDevice := by
  unfold schedule
  split_ifs <;> simp

theorem execute_config (r : SdlAudioRenderer) :
    (execute r).1.m_ChannelCount = r.m_ChannelCount ∧
    (execute r).1.m_BaselinePendingData = r.m_BaselinePendingData ∧
    (execute r).1.m_SampleIndex = r.m_SampleIndex ∧
    (execute r).1.m_AudioDevice = r.m_AudioDevice := by
  unfold execute
  split_ifs <;> simp

theorem submitFrames_config (r : SdlAudioRenderer) (f : Nat) :
    (submitFrames r f).1.m_ChannelCount = r.m_ChannelCount ∧
    (submitFrames r f).1.m_BaselinePendingData = r.m_BaselinePendingData ∧
    (submitFrames r f).1.m_SampleIndex = (r.m_SampleIndex + 1) % U32 ∧
    (submitFrames r f).1.m_AudioDevice = r.m_AudioDevice := by
  have h1 := execute_config (schedule (bumpSampleIndex r) f)
  have h2 := schedule_config (bumpSampleIndex r) f
  simp only [submitFrames]
  refine ⟨?_, ?_, ?_, ?_⟩
  · rw [h1.1, h2.1]; rfl
  · rw [h1.2.1, h2.2.1]; rfl
  · rw [h1.2.2.1, h2.2.2.1]; rfl
  · rw [h1.2.2.2, h2.2.2.2]; rfl

/-- A call whose reading yields the frame count `f` is `submitFrames` at `f`. -/
theorem submitAudio_of_frames (spf : Nat) (r : SdlAudioRenderer) (q f : Nat)
    (h : framesQueuedOf spf r q = some f) :
    submitAudio spf r q = some (submitFrames r f) := by
  have hb : framesQueuedOf spf (bumpSampleIndex r) q = some f := by
    rw [framesQueuedOf_congr spf r (bumpSampleIndex r) q rfl rfl]; exact h
  simp [submitAudio, submitFrames, hb]

/-- The call has no result when the divisor of line 166 is zero. -/
theorem submitAudio_eq_none (spf : Nat) (r : SdlAudioRenderer) (q : Nat)
    (h : bytesPerFrame spf r.m_ChannelCount = 0) : submitAudio spf r q = none := by
  have hb : framesQueuedOf spf (bumpSampleIndex r) q = none := by
    simp [framesQueuedOf, bumpSampleIndex, h]
  simp [submitAudio, hb]

/-- With a non-zero divisor every reading has a frame count. -/
theorem framesQueuedOf_isSome (spf : Nat) (r : SdlAudioRenderer) (q : Nat)
    (h : bytesPerFrame spf r.m_ChannelCount ≠ 0) :
    framesQueuedOf spf r q = some (adjustQueued r q / bytesPerFrame spf r.m_ChannelCount) := by
  simp [framesQueuedOf, h]

/-- A run whose readings yield the frame counts `fs` is the run of
`submitFrames` over `fs`. -/
theorem submitAll_of_frames (spf : Nat) :
    ∀ (readings fs : List Nat) (r : SdlAudioRenderer),
      readings.map (framesQueuedOf spf r) = fs.map some →
      submitAll spf r readings = some (submitFramesAll r fs) := by
  intro readings
  induction readings with
  | nil =>
    intro fs r h
    cases fs with
    | nil => rfl
    | cons f fs => simp at h
  | cons q qs ih =>
    intro fs r h
    cases fs with
    | nil => simp at h
    | cons f fs =>
      simp only [List.map_cons, List.cons.injEq] at h
      obtain ⟨hq, hrest⟩ := h
      have hcfg := submitFrames_config r f
      have hrest1 : qs.map (framesQueuedOf spf (submitFrames r f).1) = fs.map some := by
        rw [← hrest]
        apply List.map_congr_left
        intro a _
        exact framesQueuedOf_congr spf r _ a hcfg.1 hcfg.2.1
      have ih1 := ih fs (submitFrames r f).1 hrest1
      have hstep := submitAudio_of_frames spf r q f hq
      simp only [submitAll, hstep, submitFramesAll]
      rw [ih1]

theorem submitFramesAll_cons (r : SdlAudioRenderer) (f : Nat) (fs : List Nat) :
    submitFramesAll r (f :: fs) = submitFrames r f :: submitFramesAll (submitFrames r f).1 fs :=
  rfl

theorem submitFramesAll_length (fs : List Nat) :
    ∀ r : SdlAudioRenderer, (submitFramesAll r fs).length = fs.length := by
  induction fs with
  | nil => intro r; rfl
  | cons f fs ih => intro r; simp [submitFramesAll, ih]

theorem framesQueuedOf_le (spf : Nat) (r : SdlAudioRenderer) (q f : Nat)
    (h : framesQueuedOf spf r q = some f) : f ≤ q := by
  unfold framesQueuedOf at h
  split_ifs at h with hb
  have hf : adjustQueued r q / bytesPerFrame spf r.m_ChannelCount = f := Option.some.inj h
  have h1 : adjustQueued r q ≤ q := by
    unfold adjustQueued
    split_ifs <;> omega
  rw [← hf]
  exact le_trans (Nat.div_le_self _ _) h1

theorem execute_hard (r : SdlAudioRenderer)
    (h0 : 0 < r.m_PendingHardDrops) (hlt : r.m_PendingHardDrops < U32) :
    (execute r).2 = Outcome.hardDrop ∧
    (execute r).1.m_PendingHardDrops + 1 = r.m_PendingHardDrops ∧
    (execute r).1.m_PendingDrops = r.m_PendingDrops := by
  have hne : r.m_PendingHardDrops ≠ 0 := by omega
  simp only [execute, hne, ne_eq, not_false_eq_true, if_true, true_and, and_true]
  simp only [sub32, U32] at hlt ⊢
  omega

/-! ## Recovery and priority -/

/-- C1 (recovery): in every state, whatever the two counters and the sample
index hold, a reading whose frame count is at most `MIN_QUEUED_FRAMES` makes
`submitAudio` return with both counters zero and with exactly one
`SDL_QueueAudio` call issued for the frame. -/
theorem submitAudio_recovery (spf : Nat) (r : SdlAudioRenderer) (reading framesQueued : Nat)
    (hf : framesQueuedOf spf r reading = some framesQueued)
    (hle : framesQueued ≤ MIN_QUEUED_FRAMES) :
    ∃ r1 o, submitAudio spf r reading = some (r1, o) ∧
      r1.m_PendingDrops = 0 ∧ r1.m_PendingHardDrops = 0 ∧
      o = Outcome.queueAudio ∧ o.sinkWrites = 1 := by
  rw [submitAudio_of_frames spf r reading framesQueued hf]
  refine ⟨(submitFrames r framesQueued).1, (submitFrames r framesQueued).2, rfl, ?_⟩
  simp [submitFrames, schedule, hle, execute, Outcome.sinkWrites]

/-- C1 at a concrete state: pending drops 7, pending hard drops 5, a backlog of
one frame (960 bytes). -/
theorem submitAudio_recovery_witness :
    ∃ r1 o, submitAudio 240 { stereo with m_PendingDrops := 7, m_PendingHardDrops := 5 } 960
        = some (r1, o) ∧
      r1.m_PendingDrops = 0 ∧ r1.m_PendingHardDrops = 0 ∧
      o = Outcome.queueAudio ∧ o.sinkWrites = 1 :=
  submitAudio_recovery 240 { stereo with m_PendingDrops := 7, m_PendingHardDrops := 5 } 960 1
    (by decide) (by decide)

/-- While the sum of the two counters fits 32 bits, a scheduling step that
leaves a hard drop pending does not lower `m_PendingDrops`. -/
theorem schedule_pending_drops_mono (r : SdlAudioRenderer) (f : Nat)
    (hsum : r.m_PendingHardDrops + r.m_PendingDrops < U32) (hf : f < U32)
    (hh : 0 < (schedule r f).m_PendingHardDrops) :
    r.m_PendingDrops ≤ (schedule r f).m_PendingDrops := by
  unfold schedule at hh ⊢
  simp only [sub32, add32, U32, MIN_QUEUED_FRAMES, STOP_THE_WORLD_LIMIT,
    MAX_QUEUED_FRAMES] at hsum hf hh ⊢
  split_ifs at hh ⊢ <;> (try dsimp only at hh ⊢) <;> omega

/-- C2 (priority law): when `m_PendingHardDrops` is non-zero after the
scheduling conditions of a call, that call drops its frame through the hard
path whatever `m_PendingDrops` and `m_SampleIndex` hold: no `SDL_QueueAudio`
call is issued, `m_PendingHardDrops` goes down by exactly one and
`m_PendingDrops` keeps the value it had at decision time, which is not below
its value before the call whenever the sum of the two counters fits 32 bits. -/
theorem submitAudio_hard_priority (spf : Nat) (r : SdlAudioRenderer) (reading framesQueued : Nat)
    (hr : r.InRange) (hq : reading < U32)
    (hf : framesQueuedOf spf r reading = some framesQueued)
    (hh : 0 < (schedule (bumpSampleIndex r) framesQueued).m_PendingHardDrops) :
    ∃ r1 o, submitAudio spf r reading = some (r1, o) ∧
      o = Outcome.hardDrop ∧ o.sinkWrites = 0 ∧
      r1.m_PendingHardDrops + 1 = (schedule (bumpSampleIndex r) framesQueued).m_PendingHardDrops ∧
      r1.m_PendingDrops = (schedule (bumpSampleIndex r) framesQueued).m_PendingDrops ∧
      (r.m_PendingHardDrops + r.m_PendingDrops < U32 → r.m_PendingDrops ≤ r1.m_PendingDrops) := by
  rw [submitAudio_of_frames spf r reading framesQueued hf]
  refine ⟨(submitFrames r framesQueued).1, (submitFrames r framesQueued).2, rfl, ?_⟩
  have hlt : (schedule (bumpSampleIndex r) framesQueued).m_PendingHardDrops < U32 := by
    have h4 : r.m_PendingHardDrops < U32 := hr.2.2.2.1
    unfold schedule
    split_ifs
    · simp [U32]
    · simp only [sub32, U32]; omega
    · simpa [bumpSampleIndex] using h4
    · simpa [bumpSampleIndex] using h4
  have he := execute_hard (schedule (bumpSampleIndex r) framesQueued) hh hlt
  have hfq : framesQueued < U32 :=
    lt_of_le_of_lt (framesQueuedOf_le spf r reading framesQueued hf) hq
  refine ⟨he.1, ?_, he.2.1, he.2.2, ?_⟩
  · rw [show (submitFrames r framesQueued).2 = Outcome.hardDrop from he.1]
    rfl
  · intro hsum
    have hmono := schedule_pending_drops_mono (bumpSampleIndex r) framesQueued hsum hfq hh
    have hpd : (submitFrames r framesQueued).1.m_PendingDrops
        = (schedule (bumpSampleIndex r) framesQueued).m_PendingDrops := he.2.2
    rw [hpd]
    exact hmono

/-- C2 at a concrete state: a pending hard drop with soft drops pending as well,
on a sample index whose successor is a multiple of 32. -/
theorem submitAudio_hard_priority_witness :
    ∃ r1 o, submitAudio 240
        { stereo with m_PendingDrops := 3, m_PendingHardDrops := 9, m_SampleIndex := 31 } 9600
        = some (r1, o) ∧
      o = Outcome.hardDrop ∧ o.sinkWrites = 0 ∧
      r1.m_PendingHardDrops + 1 = 9 ∧ r1.m_PendingDrops = 3 := by
  obtain ⟨r1, o, h1, h2, h3, h4, h5, _⟩ := submitAudio_hard_priority 240
    { stereo with m_PendingDrops := 3, m_PendingHardDrops := 9, m_SampleIndex := 31 } 9600 10
    (by unfold SdlAudioRenderer.InRange; decide) (by decide) (by decide) (by decide)
  exact ⟨r1, o, h1, h2, h3, h4, h5⟩

/-! ## Calls on a controller that was never prepared -/

/-- C9 as stated fails: on the freshly constructed controller `submitAudio`
has no result (the divisor of line 166 is zero), so it is not the no-op that
returns the unchanged state. -/
theorem submitAudio_unprepared_counterexample :
    submitAudio 240 SdlAudioRenderer.new 0 = none ∧
    (bumpSampleIndex SdlAudioRenderer.new).m_SampleIndex ≠ SdlAudioRenderer.new.m_SampleIndex ∧
    ¬ ∃ o, submitAudio 240 SdlAudioRenderer.new 0 = some (SdlAudioRenderer.new, o) := by
  have h : submitAudio 240 SdlAudioRenderer.new 0 = none := by decide
  refine ⟨h, by decide, ?_⟩
  rintro ⟨o, ho⟩
  rw [h] at ho
  exact Option.noConfusion ho

/-- C9 amended: `submitAudio` makes no check of the controller state. When the
channel count is zero, which is so after construction and stays so when
`prepareForPlayback` fails to open the device, the sample index is incremented
and the divisor of line 166 is zero, so the frame count and the call have no
defined result. -/
theorem submitAudio_not_active (spf : Nat) (r : SdlAudioRenderer) (reading : Nat)
    (hc : r.m_ChannelCount = 0) :
    bytesPerFrame spf r.m_ChannelCount = 0 ∧
    framesQueuedOf spf (bumpSampleIndex r) reading = none ∧
    submitAudio spf r reading = none ∧
    (∀ (channelCount : Nat) (win32 : Bool) (idle : Nat → Nat),
      (prepareForPlayback r 0 channelCount win32 idle).2 = false ∧
      (prepareForPlayback r 0 channelCount win32 idle).1.m_ChannelCount = 0) := by
  have hb : bytesPerFrame spf r.m_ChannelCount = 0 := by simp [bytesPerFrame, hc]
  refine ⟨hb, ?_, submitAudio_eq_none spf r reading hb, ?_⟩
  · simp [framesQueuedOf, bumpSampleIndex, hb]
  · intro channelCount win32 idle
    simp [prepareForPlayback, hc]

/-- C9 amended, at the constructed controller. -/
theorem submitAudio_not_active_witness :
    SdlAudioRenderer.new.m_ChannelCount = 0 ∧
    submitAudio 240 SdlAudioRenderer.new 4800 = none :=
  ⟨rfl, (submitAudio_not_active 240 SdlAudioRenderer.new 4800 rfl).2.2.1⟩

/-! ## Calibration -/

theorem foldl_max_eq (l : List Nat) :
    ∀ a m : Nat, (m = a ∨ m ∈ l) → a ≤ m → (∀ q ∈ l, q ≤ m) →
      l.foldl (fun baseline q => max baseline q) a = m := by
  induction l with
  | nil =>
    intro a m hm _ _
    rcases hm with h | h
    · simp [h]
    · simp at h
  | cons x xs ih =>
    intro a m hm ha hall
    have hx : x ≤ m := hall x (List.mem_cons_self x xs)
    simp only [List.foldl_cons]
    apply ih
    · rcases hm with h | h
      · left; subst h; omega
      · rcases List.mem_cons.mp h with h1 | h1
        · left; subst h1; omega
        · right; exact h1
    · omega
    · intro q hq
      exact hall q (List.mem_cons_of_mem x hq)

/-- C10 as stated fails: for the single idle reading `2^31` the doubling wraps
in 32 bits and the baseline is 0, not `2^32`. -/
theorem calibrate_counterexample :
    calibrate [2147483648] = 0 ∧ calibrate [2147483648] ≠ 2 * 2147483648 := by
  decide

/-- C10 amended: the baseline is twice the largest reading of the calibration
window reduced modulo `2^32`; it is exactly twice the largest reading whenever
that reading is below `2^31`, and it is zero when no reading is sampled, as on
every platform other than `Q_OS_WIN32`. -/
theorem calibrate_max (readings : List Nat) (m : Nat)
    (hm : m ∈ readings) (hmax : ∀ q ∈ readings, q ≤ m) :
    calibrate readings = (2 * m) % U32 ∧
    (m < 2147483648 → calibrate readings = 2 * m) ∧
    calibrate [] = 0 ∧
    (∀ (r : SdlAudioRenderer) (device channelCount : Nat) (idle : Nat → Nat), device ≠ 0 →
      (prepareForPlayback r device channelCount false idle).1.m_BaselinePendingData = 0 ∧
      (prepareForPlayback r device channelCount true idle).1.m_BaselinePendingData
        = calibrate ((List.range 100).map idle)) := by
  have hfold := foldl_max_eq readings 0 m (Or.inr hm) (Nat.zero_le m) hmax
  have hcal : calibrate readings = (2 * m) % U32 := by
    simp only [calibrate, hfold]
    rw [Nat.mul_comm]
  refine ⟨hcal, ?_, by decide, ?_⟩
  · intro hlt
    rw [hcal]
    simp only [U32]
    omega
  · intro r device channelCount idle hdev
    constructor
    · simp [prepareForPlayback, hdev, calibrationWindow, calibrate]
    · simp [prepareForPlayback, hdev, calibrationWindow]

/-- C10 amended, at the readings 5, 9, 3, 7: the baseline is 18. -/
theorem calibrate_max_witness :
    calibrate [5, 9, 3, 7] = 18 ∧ calibrate [5, 9, 3, 7] = 2 * 9 := by
  have h := calibrate_max [5, 9, 3, 7] 9 (by decide) (by decide)
  exact ⟨h.1.trans (by decide), h.2.1 (by decide)⟩

/-! ## Runs at the level of frame counts -/

/-- Readings that all have a frame count satisfying `P` yield a list of frame
counts satisfying `P`. -/
theorem exists_frames (spf : Nat) (r : SdlAudioRenderer) (P : Nat → Prop) :
    ∀ readings : List Nat,
      (∀ q ∈ readings, ∃ f, framesQueuedOf spf r q = some f ∧ P f) →
      ∃ fs : List Nat, readings.map (framesQueuedOf spf r) = fs.map some ∧ ∀ f ∈ fs, P f := by
  intro readings
  induction readings with
  | nil => intro _; exact ⟨[], rfl, by simp⟩
  | cons q qs ih =>
    intro h
    obtain ⟨f, hf, hP⟩ := h q (List.mem_cons_self q qs)
    obtain ⟨fs, hfs, hall⟩ := ih (fun a ha => h a (List.mem_cons_of_mem q ha))
    refine ⟨f :: fs, by simp [hf, hfs], ?_⟩
    intro g hg
    rcases List.mem_cons.mp hg with h1 | h1
    · rw [h1]; exact hP
    · exact hall g h1

/-- With both counters zero and at most `MAX_QUEUED_FRAMES` frames queued, a
call schedules nothing and queues its frame. -/
theorem submitFrames_within_max (r : SdlAudioRenderer) (f : Nat)
    (hpd : r.m_PendingDrops = 0) (hphd : r.m_PendingHardDrops = 0)
    (hf : f ≤ MAX_QUEUED_FRAMES) :
    (submitFrames r f).1.m_PendingDrops = 0 ∧ (submitFrames r f).1.m_PendingHardDrops = 0 ∧
    (submitFrames r f).2 = Outcome.queueAudio := by
  have hs : (schedule (bumpSampleIndex r) f).m_PendingDrops = 0 ∧
      (schedule (bumpSampleIndex r) f).m_PendingHardDrops = 0 := by
    simp only [MAX_QUEUED_FRAMES] at hf
    unfold schedule
    simp only [bumpSampleIndex, hpd, hphd, sub32, add32, U32, MIN_QUEUED_FRAMES,
      STOP_THE_WORLD_LIMIT, MAX_QUEUED_FRAMES]
    split_ifs with h1 h2 h3
    · exact ⟨rfl, rfl⟩
    · omega
    · omega
    · exact ⟨rfl, rfl⟩
  simp [submitFrames, execute, hs.1, hs.2]

theorem submitFramesAll_within_max (fs : List Nat) :
    ∀ r : SdlAudioRenderer, r.m_PendingDrops = 0 → r.m_PendingHardDrops = 0 →
      (∀ f ∈ fs, f ≤ MAX_QUEUED_FRAMES) →
      ∀ e ∈ submitFramesAll r fs,
        e.1.m_PendingDrops = 0 ∧ e.1.m_PendingHardDrops = 0 ∧ e.2 = Outcome.queueAudio := by
  induction fs with
  | nil => intro r _ _ _ e he; simp [submitFramesAll] at he
  | cons f fs ih =>
    intro r hpd hphd hall e he
    have hstep := submitFrames_within_max r f hpd hphd (hall f (List.mem_cons_self f fs))
    simp only [submitFramesAll, List.mem_cons] at he
    rcases he with h | h
    · rw [h]; exact hstep
    · exact ih (submitFrames r f).1 hstep.1 hstep.2.1
        (fun g hg => hall g (List.mem_cons_of_mem f hg)) e h

/-- C5 (scenario A, generalised): from a state with both counters zero, when
every reading of a run gives at most `MAX_QUEUED_FRAMES` frames, every call
returns, leaves both counters zero and queues its frame. -/
theorem submitAll_within_max (spf : Nat) (r : SdlAudioRenderer) (readings : List Nat)
    (hpd : r.m_PendingDrops = 0) (hphd : r.m_PendingHardDrops = 0)
    (hq : ∀ q ∈ readings, ∃ f, framesQueuedOf spf r q = some f ∧ f ≤ MAX_QUEUED_FRAMES) :
    ∃ trace, submitAll spf r readings = some trace ∧ trace.length = readings.length ∧
      ∀ e ∈ trace,
        e.1.m_PendingDrops = 0 ∧ e.1.m_PendingHardDrops = 0 ∧ e.2 = Outcome.queueAudio := by
  obtain ⟨fs, hfs, hall⟩ := exists_frames spf r (fun f => f ≤ MAX_QUEUED_FRAMES) readings hq
  refine ⟨submitFramesAll r fs, submitAll_of_frames spf readings fs r hfs, ?_, ?_⟩
  · rw [submitFramesAll_length]
    have := congrArg List.length hfs
    simpa using this.symm
  · exact submitFramesAll_within_max fs r hpd hphd hall

/-- C5 at scenario A: a steady backlog of three frames (2880 bytes) for ten
calls on the prepared stereo controller. -/
theorem submitAll_within_max_witness :
    ∃ trace, submitAll 240 stereo (List.replicate 10 2880) = some trace ∧
      trace.length = (List.replicate 10 2880).length ∧
      ∀ e ∈ trace,
        e.1.m_PendingDrops = 0 ∧ e.1.m_PendingHardDrops = 0 ∧ e.2 = Outcome.queueAudio :=
  submitAll_within_max 240 stereo (List.replicate 10 2880) rfl rfl
    (fun q hq => ⟨3, by rw [List.eq_of_mem_replicate hq]; decide, by decide⟩)

/-! ## A constant backlog above the stop-the-world limit -/

theorem schedule_constant25 (r : SdlAudioRenderer)
    (h : r.m_PendingHardDrops = 0 ∨ (4 ≤ r.m_PendingHardDrops ∧ r.m_PendingHardDrops ≤ 22)) :
    5 ≤ (schedule r 25).m_PendingHardDrops ∧ (schedule r 25).m_PendingHardDrops ≤ 23 := by
  unfold schedule
  simp only [sub32, add32, U32, MIN_QUEUED_FRAMES, STOP_THE_WORLD_LIMIT, MAX_QUEUED_FRAMES]
  split_ifs with h1 h2 h3 <;> (try dsimp only) <;> omega

/-- One call at a frame count of 25 keeps the pending hard drops between 4 and
22 and drops the frame through the hard path. -/
theorem submitFrames_constant25 (r : SdlAudioRenderer)
    (h : r.m_PendingHardDrops = 0 ∨ (4 ≤ r.m_PendingHardDrops ∧ r.m_PendingHardDrops ≤ 22)) :
    (submitFrames r 25).2 = Outcome.hardDrop ∧
    4 ≤ (submitFrames r 25).1.m_PendingHardDrops ∧
    (submitFrames r 25).1.m_PendingHardDrops ≤ 22 := by
  have hs := schedule_constant25 (bumpSampleIndex r) h
  have he := execute_hard (schedule (bumpSampleIndex r) 25) (by omega) (by simp only [U32]; omega)
  simp only [submitFrames]
  refine ⟨he.1, ?_, ?_⟩ <;> omega

theorem submitFramesAll_constant25 (n : Nat) :
    ∀ r : SdlAudioRenderer,
      (r.m_PendingHardDrops = 0 ∨ (4 ≤ r.m_PendingHardDrops ∧ r.m_PendingHardDrops ≤ 22)) →
      ∀ e ∈ submitFramesAll r (List.replicate n 25),
        e.2 = Outcome.hardDrop ∧ 4 ≤ e.1.m_PendingHardDrops ∧ e.1.m_PendingHardDrops ≤ 22 := by
  induction n with
  | zero => intro r _ e he; simp [submitFramesAll] at he
  | succ n ih =>
    intro r h e he
    have hstep := submitFrames_constant25 r h
    simp only [List.replicate_succ, submitFramesAll, List.mem_cons] at he
    rcases he with h1 | h1
    · rw [h1]; exact hstep
    · exact ih (submitFrames r 25).1 (Or.inr hstep.2) e h1

/-- Readings that all have the frame count `f` give the constant list of
frame counts. -/
theorem map_frames_const (spf : Nat) (r : SdlAudioRenderer) (f : Nat) (readings : List Nat)
    (hq : ∀ q ∈ readings, framesQueuedOf spf r q = some f) :
    readings.map (framesQueuedOf spf r) = (List.replicate readings.length f).map some := by
  induction readings with
  | nil => rfl
  | cons q qs ih =>
    have h1 := hq q (List.mem_cons_self q qs)
    have h2 := ih (fun a ha => hq a (List.mem_cons_of_mem q ha))
    simp [h1, h2, List.replicate_succ]

/-- C8 as stated fails: with the sink reporting a constant backlog of 25 frames
(24000 bytes on the stereo controller) no run, however long, contains a call
after which `m_PendingHardDrops` is zero or whose frame is queued. -/
theorem constant_backlog_counterexample :
    ¬ ∃ (n : Nat) (trace : List (SdlAudioRenderer × Outcome)),
        submitAll 240 stereo (List.replicate n 24000) = some trace ∧
        ∃ e ∈ trace, e.1.m_PendingHardDrops = 0 ∨ e.2 = Outcome.queueAudio := by
  rintro ⟨n, trace, hrun, e, he, hbad⟩
  have hmap := map_frames_const 240 stereo 25 (List.replicate n 24000)
    (fun q hq => by rw [List.eq_of_mem_replicate hq]; decide)
  rw [submitAll_of_frames 240 _ _ stereo hmap] at hrun
  have htr : trace = submitFramesAll stereo (List.replicate (List.replicate n 24000).length 25) :=
    (Option.some.inj hrun).symm
  rw [htr] at he
  have hinv := submitFramesAll_constant25 _ stereo (Or.inl rfl) e he
  rcases hbad with h | h
  · omega
  · rw [h] at hinv
    exact Outcome.noConfusion hinv.1

/-- C8 amended: from a state with no pending hard drops, with every reading
giving `STOP_THE_WORLD_LIMIT + 5 = 25` frames, the first call schedules a hard
burst of `25 - MIN_QUEUED_FRAMES = 23` frames, and every call of the run,
however long, drops its frame through the hard path and leaves between 4 and 22
hard drops pending: while the reported backlog stays at 25 the burst is re-armed
before it is exhausted and no frame is queued. -/
theorem constant_backlog_keeps_dropping (spf : Nat) (r : SdlAudioRenderer) (readings : List Nat)
    (hphd : r.m_PendingHardDrops = 0)
    (hq : ∀ q ∈ readings, framesQueuedOf spf r q = some (STOP_THE_WORLD_LIMIT + 5)) :
    (schedule (bumpSampleIndex r) (STOP_THE_WORLD_LIMIT + 5)).m_PendingHardDrops
      = STOP_THE_WORLD_LIMIT + 5 - MIN_QUEUED_FRAMES ∧
    STOP_THE_WORLD_LIMIT + 5 - (STOP_THE_WORLD_LIMIT + 5 - MIN_QUEUED_FRAMES) = MIN_QUEUED_FRAMES ∧
    ∃ trace, submitAll spf r readings = some trace ∧ trace.length = readings.length ∧
      ∀ e ∈ trace,
        e.2 = Outcome.hardDrop ∧ 4 ≤ e.1.m_PendingHardDrops ∧ e.1.m_PendingHardDrops ≤ 22 := by
  refine ⟨?_, by decide, ?_⟩
  · unfold schedule
    simp only [bumpSampleIndex, hphd, sub32, add32, U32, MIN_QUEUED_FRAMES, STOP_THE_WORLD_LIMIT,
      MAX_QUEUED_FRAMES]
    rw [if_neg (by decide), if_pos (by decide)]
  · have hmap := map_frames_const spf r 25 readings hq
    refine ⟨_, submitAll_of_frames spf readings _ r hmap, ?_, ?_⟩
    · simp [submitFramesAll_length]
    · exact submitFramesAll_constant25 _ r (Or.inl hphd)

/-- C8 amended, on the prepared stereo controller for sixty calls. -/
theorem constant_backlog_keeps_dropping_witness :
    ∃ trace, submitAll 240 stereo (List.replicate 60 24000) = some trace ∧
      trace.length = (List.replicate 60 24000).length ∧
      ∀ e ∈ trace,
        e.2 = Outcome.hardDrop ∧ 4 ≤ e.1.m_PendingHardDrops ∧ e.1.m_PendingHardDrops ≤ 22 :=
  (constant_backlog_keeps_dropping 240 stereo (List.replicate 60 24000) rfl
    (fun q hq => by rw [List.eq_of_mem_replicate hq]; decide)).2.2

/-! ## A hard burst against a backlog that falls with each drop -/

/-- A call that sees two frames more than the pending hard drops, with no soft
drops pending, schedules nothing and consumes one hard drop. -/
theorem submitFrames_in_burst (r : SdlAudioRenderer) (p : Nat)
    (hpd : r.m_PendingDrops = 0) (hphd : r.m_PendingHardDrops = p + 1) (hlt : p + 3 < U32) :
    (submitFrames r (p + 3)).2 = Outcome.hardDrop ∧
    (submitFrames r (p + 3)).1.m_PendingHardDrops = p ∧
    (submitFrames r (p + 3)).1.m_PendingDrops = 0 := by
  have hs : (schedule (bumpSampleIndex r) (p + 3)).m_PendingHardDrops = p + 1 ∧
      (schedule (bumpSampleIndex r) (p + 3)).m_PendingDrops = 0 := by
    unfold schedule
    simp only [bumpSampleIndex, hpd, hphd, sub32, add32, U32, MIN_QUEUED_FRAMES,
      STOP_THE_WORLD_LIMIT, MAX_QUEUED_FRAMES] at hlt ⊢
    split_ifs with h1 h2 h3 <;> (try dsimp only) <;> omega
  have he := execute_hard (schedule (bumpSampleIndex r) (p + 3)) (by omega)
    (by simp only [U32] at hlt ⊢; omega)
  simp only [submitFrames]
  refine ⟨he.1, ?_, ?_⟩ <;> omega

/-- With `p` hard drops pending and a backlog of `p + 2` frames that falls by
one per call, `p` calls drop and the next one queues with both counters zero. -/
theorem submitFramesAll_burst (p : Nat) :
    ∀ r : SdlAudioRenderer, r.m_PendingDrops = 0 → r.m_PendingHardDrops = p → p + 3 < U32 →
      ∃ burst rLast,
        submitFramesAll r (fallingBacklog (p + 2) (p + 1)) = burst ++ [(rLast, Outcome.queueAudio)] ∧
        burst.length = p ∧ (∀ e ∈ burst, e.2 = Outcome.hardDrop) ∧
        rLast.m_PendingDrops = 0 ∧ rLast.m_PendingHardDrops = 0 := by
  induction p with
  | zero =>
    intro r hpd hphd _
    have h := submitFrames_within_max r 2 hpd hphd (by decide)
    refine ⟨[], (submitFrames r 2).1, ?_, rfl, by simp, h.1, h.2.1⟩
    simp only [fallingBacklog, submitFramesAll, List.nil_append]
    rw [← h.2.2]
  | succ p ih =>
    intro r hpd hphd hlt
    have hstep := submitFrames_in_burst r p hpd hphd (by omega)
    obtain ⟨burst, rLast, hrun, hlen, hall, h1, h2⟩ :=
      ih (submitFrames r (p + 3)).1 hstep.2.2 hstep.2.1 (by omega)
    refine ⟨submitFrames r (p + 3) :: burst, rLast, ?_, by simp [hlen], ?_, h1, h2⟩
    · have hfb : fallingBacklog (p + 1 + 2) (p + 1 + 1)
          = (p + 3) :: fallingBacklog (p + 2) (p + 1) := rfl
      rw [hfb, submitFramesAll_cons, hrun, List.cons_append]
    · intro e he
      rcases List.mem_cons.mp he with h | h
      · rw [h]; exact hstep.1
      · exact hall e h

/-- The first call of the burst: both counters zero and more than
`STOP_THE_WORLD_LIMIT` frames queued. -/
theorem submitFrames_jump (r : SdlAudioRenderer) (F : Nat)
    (hpd : r.m_PendingDrops = 0) (hphd : r.m_PendingHardDrops = 0)
    (hF : STOP_THE_WORLD_LIMIT < F) (hlt : F < U32) :
    (schedule (bumpSampleIndex r) F).m_PendingHardDrops = F - MIN_QUEUED_FRAMES ∧
    (submitFrames r F).2 = Outcome.hardDrop ∧
    (submitFrames r F).1.m_PendingHardDrops = F - 3 ∧
    (submitFrames r F).1.m_PendingDrops = 0 := by
  have hs : (schedule (bumpSampleIndex r) F).m_PendingHardDrops = F - MIN_QUEUED_FRAMES ∧
      (schedule (bumpSampleIndex r) F).m_PendingDrops = 0 := by
    unfold schedule
    simp only [bumpSampleIndex, hpd, hphd, sub32, add32, U32, MIN_QUEUED_FRAMES,
      STOP_THE_WORLD_LIMIT, MAX_QUEUED_FRAMES] at hF hlt ⊢
    split_ifs with h1 h2 h3 <;> (try dsimp only) <;> omega
  simp only [MIN_QUEUED_FRAMES, STOP_THE_WORLD_LIMIT, U32] at hs hF hlt
  have he := execute_hard (schedule (bumpSampleIndex r) F) (by omega)
    (by simp only [U32]; omega)
  simp only [submitFrames, MIN_QUEUED_FRAMES]
  refine ⟨hs.1, he.1, ?_, ?_⟩ <;> omega

/-- C6 (scenario B, generalised): a call with both counters zero that observes
`F > STOP_THE_WORLD_LIMIT` frames sets `m_PendingHardDrops` to
`F - MIN_QUEUED_FRAMES` in its scheduling step; against a backlog that falls by
one frame per call from `F`, the first `F - 2` calls, counted from that call,
drop their frame through the hard path with no `SDL_QueueAudio` call, and the
next call queues its frame and leaves both counters zero. -/
theorem hard_burst (spf : Nat) (r : SdlAudioRenderer) (F : Nat) (readings : List Nat)
    (hpd : r.m_PendingDrops = 0) (hphd : r.m_PendingHardDrops = 0)
    (hF : STOP_THE_WORLD_LIMIT < F)
    (h32 : ∀ q ∈ readings, q < U32)
    (hq : readings.map (framesQueuedOf spf r) = (fallingBacklog F (F - 1)).map some) :
    (schedule (bumpSampleIndex r) F).m_PendingHardDrops = F - MIN_QUEUED_FRAMES ∧
    ∃ burst rLast,
      submitAll spf r readings = some (burst ++ [(rLast, Outcome.queueAudio)]) ∧
      burst.length = F - MIN_QUEUED_FRAMES ∧
      (∀ e ∈ burst, e.2 = Outcome.hardDrop ∧ e.2.sinkWrites = 0) ∧
      rLast.m_PendingDrops = 0 ∧ rLast.m_PendingHardDrops = 0 := by
  have hF20 : 20 < F := hF
  obtain ⟨p, rfl⟩ : ∃ p, F = p + 3 := ⟨F - 3, by omega⟩
  have hfb : fallingBacklog (p + 3) (p + 3 - 1) = (p + 3) :: fallingBacklog (p + 2) (p + 1) := rfl
  rw [hfb] at hq
  have hlt : p + 3 < U32 := by
    cases readings with
    | nil => simp at hq
    | cons q qs =>
      simp only [List.map_cons, List.cons.injEq] at hq
      have := framesQueuedOf_le spf r q (p + 3) hq.1
      have := h32 q (List.mem_cons_self q qs)
      omega
  have hjump := submitFrames_jump r (p + 3) hpd hphd hF hlt
  have hp : (submitFrames r (p + 3)).1.m_PendingHardDrops = p := by
    have := hjump.2.2.1
    omega
  obtain ⟨burst, rLast, hrun, hlen, hall, h1, h2⟩ :=
    submitFramesAll_burst p (submitFrames r (p + 3)).1 hjump.2.2.2 hp hlt
  refine ⟨hjump.1, submitFrames r (p + 3) :: burst, rLast, ?_, ?_, ?_, h1, h2⟩
  · rw [submitAll_of_frames spf readings _ r hq, submitFramesAll_cons, hrun, List.cons_append]
  · simp only [List.length_cons, hlen, MIN_QUEUED_FRAMES]
    omega
  · intro e he
    rcases List.mem_cons.mp he with h | h
    · rw [h, hjump.2.1]; exact ⟨rfl, rfl⟩
    · rw [hall e h]; exact ⟨rfl, rfl⟩

/-- C6 at scenario B: the backlog jumps to 25 frames and falls by one frame
(960 bytes) per call; 23 calls drop and the 24th queues. -/
theorem hard_burst_witness :
    (schedule (bumpSampleIndex stereo) 25).m_PendingHardDrops = 23 ∧
    ∃ burst rLast,
      submitAll 240 stereo ((fallingBacklog 25 24).map (fun f => f * 960))
        = some (burst ++ [(rLast, Outcome.queueAudio)]) ∧
      burst.length = 23 ∧
      (∀ e ∈ burst, e.2 = Outcome.hardDrop ∧ e.2.sinkWrites = 0) ∧
      rLast.m_PendingDrops = 0 ∧ rLast.m_PendingHardDrops = 0 :=
  hard_burst 240 stereo 25 ((fallingBacklog 25 24).map (fun f => f * 960)) rfl rfl
    (by decide) (by decide) (by decide)

/-! ## A steady backlog of six frames -/

/-- The counters, sample index and outcome after a call depend on the state
only through its counters and sample index. -/
theorem submitFrames_summary (r : SdlAudioRenderer) (f : Nat) :
    summary (submitFrames r f)
      = summary (submitFrames
          (ofCounters r.m_PendingDrops r.m_PendingHardDrops r.m_SampleIndex) f) := by
  unfold submitFrames execute schedule
  simp only [bumpSampleIndex, ofCounters, summary]
  split_ifs <;> rfl

theorem submitFramesAll_summary (fs : List Nat) :
    ∀ r r1 : SdlAudioRenderer, r.m_PendingDrops = r1.m_PendingDrops →
      r.m_PendingHardDrops = r1.m_PendingHardDrops → r.m_SampleIndex = r1.m_SampleIndex →
      (submitFramesAll r fs).map summary = (submitFramesAll r1 fs).map summary := by
  induction fs with
  | nil => intro r r1 _ _ _; rfl
  | cons f fs ih =>
    intro r r1 h1 h2 h3
    have hs : summary (submitFrames r f) = summary (submitFrames r1 f) := by
      rw [submitFrames_summary r f, submitFrames_summary r1 f, h1, h2, h3]
    have hs1 := hs
    simp only [summary, Prod.mk.injEq] at hs1
    rw [submitFramesAll_cons, submitFramesAll_cons, List.map_cons, List.map_cons, hs,
      ih (submitFrames r f).1 (submitFrames r1 f).1 hs1.1 hs1.2.1 hs1.2.2.1]

theorem drops_eq_summary (trace : List (SdlAudioRenderer × Outcome)) :
    drops trace
      = ((trace.map summary).filter (fun s => decide (s.2.2.2 ≠ Outcome.queueAudio))).length := by
  rw [List.filter_map, List.length_map]
  rfl

/-- C7 as stated fails: on the prepared stereo controller with a steady
backlog of six frames (5760 bytes), the first call sets `m_PendingDrops` to 4,
and among the next 32 calls one frame is dropped, not four. -/
theorem steady_six_counterexample :
    (submitAll 240 stereo (List.replicate 33 5760)).map
        (fun trace => (trace.map (fun e => e.1.m_PendingDrops)).head?) = some (some 4) ∧
    (submitAll 240 stereo (List.replicate 33 5760)).map (fun trace => drops (trace.drop 1))
      = some 1 ∧
    (submitAll 240 stereo (List.replicate 33 5760)).map (fun trace => drops (trace.drop 1))
      ≠ some 4 := by
  decide

/-- C7 amended: from a state with both counters and the sample index zero and
a steady backlog of six frames, the first call sets `m_PendingDrops` to
`6 - MIN_QUEUED_FRAMES = 4` and queues its frame; of the next 32 calls exactly
one drops its frame, through the soft path at sample index 32, and the other 31
queue theirs. -/
theorem steady_six (spf : Nat) (r : SdlAudioRenderer) (readings : List Nat)
    (hpd : r.m_PendingDrops = 0) (hphd : r.m_PendingHardDrops = 0) (hidx : r.m_SampleIndex = 0)
    (hlen : readings.length = 33)
    (hq : ∀ q ∈ readings, framesQueuedOf spf r q = some 6) :
    ∃ first rest, submitAll spf r readings = some (first :: rest) ∧
      first.1.m_PendingDrops = 6 - MIN_QUEUED_FRAMES ∧ first.2 = Outcome.queueAudio ∧
      rest.length = DROP_RATIO_DENOM ∧
      drops rest = 1 ∧
      (∀ e ∈ rest, e.2 ≠ Outcome.queueAudio →
        e.2 = Outcome.softDrop ∧ e.1.m_SampleIndex = 32 ∧
        e.1.m_SampleIndex % DROP_RATIO_DENOM = 0) ∧
      (rest.filter (fun e => decide (e.2 = Outcome.queueAudio))).length = 31 := by
  have hmap := map_frames_const spf r 6 readings hq
  rw [hlen] at hmap
  have hrun := submitAll_of_frames spf readings _ r hmap
  have h33 : List.replicate 33 6 = 6 :: List.replicate 32 6 := rfl
  rw [h33, submitFramesAll_cons] at hrun
  have hsum := submitFramesAll_summary (6 :: List.replicate 32 6) r (ofCounters 0 0 0)
    hpd hphd hidx
  rw [submitFramesAll_cons, submitFramesAll_cons, List.map_cons, List.map_cons] at hsum
  obtain ⟨hfirst, hrest⟩ := List.cons.inj hsum
  generalize submitFrames r 6 = first at hrun hfirst hrest
  generalize submitFramesAll first.1 (List.replicate 32 6) = rest at hrun hrest
  have hfirst1 : summary first = (4, 0, 1, Outcome.queueAudio) := by
    rw [hfirst]; decide
  simp only [summary, Prod.mk.injEq] at hfirst1
  refine ⟨first, rest, hrun, hfirst1.1, hfirst1.2.2.2, ?_, ?_, ?_, ?_⟩
  · have := congrArg List.length hrest
    rw [List.length_map] at this
    rw [this]
    decide
  · rw [drops_eq_summary, hrest]
    decide
  · intro e he hne
    have hmem : summary e ∈ rest.map summary := List.mem_map_of_mem summary he
    rw [hrest] at hmem
    have hall : ∀ s ∈ (submitFramesAll (submitFrames (ofCounters 0 0 0) 6).1
        (List.replicate 32 6)).map summary,
        s.2.2.2 ≠ Outcome.queueAudio →
          s.2.2.2 = Outcome.softDrop ∧ s.2.2.1 = 32 ∧ s.2.2.1 % DROP_RATIO_DENOM = 0 := by
      decide
    exact hall (summary e) hmem hne
  · have hfm : (rest.filter (fun e => decide (e.2 = Outcome.queueAudio))).length
        = ((rest.map summary).filter
            (fun s => decide (s.2.2.2 = Outcome.queueAudio))).length := by
      rw [List.filter_map, List.length_map]
      rfl
    rw [hfm, hrest]
    decide

/-- C7 amended, on the prepared stereo controller with 5760 bytes queued at
each of 33 calls. -/
theorem steady_six_witness :
    ∃ first rest, submitAll 240 stereo (List.replicate 33 5760) = some (first :: rest) ∧
      first.1.m_PendingDrops = 6 - MIN_QUEUED_FRAMES ∧ first.2 = Outcome.queueAudio ∧
      rest.length = DROP_RATIO_DENOM ∧
      drops rest = 1 ∧
      (∀ e ∈ rest, e.2 ≠ Outcome.queueAudio →
        e.2 = Outcome.softDrop ∧ e.1.m_SampleIndex = 32 ∧
        e.1.m_SampleIndex % DROP_RATIO_DENOM = 0) ∧
      (rest.filter (fun e => decide (e.2 = Outcome.queueAudio))).length = 31 :=
  steady_six 240 stereo (List.replicate 33 5760) rfl rfl rfl rfl
    (fun q hq => by rw [List.eq_of_mem_replicate hq]; decide)

/-! ## The rate of soft drops -/

/-- The soft path is taken exactly when no hard drop is pending, a soft drop is
pending and the sample index is a multiple of `DROP_RATIO_DENOM`. -/
theorem execute_soft_iff (r : SdlAudioRenderer) :
    (execute r).2 = Outcome.softDrop ↔
      r.m_PendingHardDrops = 0 ∧ r.m_PendingDrops ≠ 0 ∧ r.m_SampleIndex % DROP_RATIO_DENOM = 0 := by
  unfold execute
  split_ifs with h1 h2
  · simp only [false_iff, reduceCtorEq]
    intro h
    exact h1 h.1
  · simp only [true_iff]
    exact ⟨not_not.mp h1, h2.1, h2.2⟩
  · simp only [false_iff, reduceCtorEq]
    intro h
    exact h2 ⟨h.2.1, h.2.2⟩

/-- A call that takes the soft path ends on a sample index that is a multiple of
`DROP_RATIO_DENOM`, and before it the index was 31 modulo 32. -/
theorem submitFrames_soft (r : SdlAudioRenderer) (f : Nat)
    (h : (submitFrames r f).2 = Outcome.softDrop) :
    (submitFrames r f).1.m_SampleIndex % DROP_RATIO_DENOM = 0 ∧ r.m_SampleIndex % 32 = 31 := by
  have hcfg := submitFrames_config r f
  have hsoft := (execute_soft_iff (schedule (bumpSampleIndex r) f)).mp h
  have hidx : (schedule (bumpSampleIndex r) f).m_SampleIndex = (r.m_SampleIndex + 1) % U32 :=
    (schedule_config (bumpSampleIndex r) f).2.2.1
  have h0 := hsoft.2.2
  rw [hidx] at h0
  rw [hcfg.2.2.1]
  simp only [DROP_RATIO_DENOM, U32] at h0 ⊢
  omega

theorem softDrops_cons (e : SdlAudioRenderer × Outcome) (t : List (SdlAudioRenderer × Outcome)) :
    softDrops (e :: t) = (if e.2 = Outcome.softDrop then 1 else 0) + softDrops t := by
  unfold softDrops
  by_cases h : e.2 = Outcome.softDrop
  · simp [List.filter_cons, h]; omega
  · simp [List.filter_cons, h]

/-- Over any run the soft drops number at most the multiples of 32 that the
sample index passes. -/
theorem softDrops_le (fs : List Nat) :
    ∀ r : SdlAudioRenderer,
      softDrops (submitFramesAll r fs) ≤ (r.m_SampleIndex % 32 + fs.length) / 32 ∧
      ∀ e ∈ submitFramesAll r fs,
        e.2 = Outcome.softDrop → e.1.m_SampleIndex % DROP_RATIO_DENOM = 0 := by
  induction fs with
  | nil =>
    intro r
    refine ⟨by simp [submitFramesAll, softDrops], ?_⟩
    intro e he
    simp [submitFramesAll] at he
  | cons f fs ih =>
    intro r
    obtain ⟨ihc, ihs⟩ := ih (submitFrames r f).1
    have hidx : (submitFrames r f).1.m_SampleIndex = (r.m_SampleIndex + 1) % U32 :=
      (submitFrames_config r f).2.2.1
    rw [submitFramesAll_cons]
    constructor
    · rw [softDrops_cons, List.length_cons]
      rw [hidx] at ihc
      simp only [U32] at ihc
      by_cases hs : (submitFrames r f).2 = Outcome.softDrop
      · have h31 := (submitFrames_soft r f hs).2
        simp only [hs, if_true]
        omega
      · simp only [hs, if_false]
        omega
    · intro e he hsoft
      rcases List.mem_cons.mp he with h | h
      · rw [h] at hsoft ⊢
        exact (submitFrames_soft r f hsoft).1
      · exact ihs e h hsoft

/-- C3 (rate law): in a run of `submitAudio` calls from any state over any
readings, every call returns; a call drops its frame through the soft path
exactly when, at decision time, no hard drop is pending, a soft drop is pending
and the incremented sample index is a multiple of `DROP_RATIO_DENOM`; every such
call therefore ends on a sample index congruent to 0 modulo 32, and a run of at
most 32 calls holds at most one of them, the 32-bit wrap of the sample index
included. -/
theorem soft_drop_rate (spf : Nat) (r : SdlAudioRenderer) (readings : List Nat)
    (hb : bytesPerFrame spf r.m_ChannelCount ≠ 0) :
    (∀ (r1 : SdlAudioRenderer) (f : Nat),
      (submitFrames r1 f).2 = Outcome.softDrop ↔
        (schedule (bumpSampleIndex r1) f).m_PendingHardDrops = 0 ∧
        (schedule (bumpSampleIndex r1) f).m_PendingDrops ≠ 0 ∧
        ((r1.m_SampleIndex + 1) % U32) % DROP_RATIO_DENOM = 0) ∧
    ∃ trace, submitAll spf r readings = some trace ∧ trace.length = readings.length ∧
      (∀ e ∈ trace, e.2 = Outcome.softDrop → e.1.m_SampleIndex % DROP_RATIO_DENOM = 0) ∧
      (readings.length ≤ DROP_RATIO_DENOM → softDrops trace ≤ 1) := by
  constructor
  · intro r1 f
    have h := execute_soft_iff (schedule (bumpSampleIndex r1) f)
    rw [(schedule_config (bumpSampleIndex r1) f).2.2.1] at h
    exact h
  · obtain ⟨fs, hfs, -⟩ := exists_frames spf r (fun _ => True) readings
      (fun q _ => ⟨_, framesQueuedOf_isSome spf r q hb, trivial⟩)
    have hlen : fs.length = readings.length := by
      have := congrArg List.length hfs
      simpa using this.symm
    obtain ⟨hcount, hsoft⟩ := softDrops_le fs r
    refine ⟨submitFramesAll r fs, submitAll_of_frames spf readings fs r hfs, ?_, hsoft, ?_⟩
    · rw [submitFramesAll_length, hlen]
    · intro h32
      rw [hlen] at hcount
      simp only [DROP_RATIO_DENOM] at h32
      omega

/-- C3 on a run of 32 calls that crosses the 32-bit wrap of the sample index,
with soft drops pending and six frames queued throughout. -/
theorem soft_drop_rate_witness :
    ∃ trace, submitAll 240 { stereo with m_PendingDrops := 4, m_SampleIndex := 4294967290 }
        (List.replicate 32 5760) = some trace ∧
      trace.length = (List.replicate 32 5760).length ∧
      (∀ e ∈ trace, e.2 = Outcome.softDrop → e.1.m_SampleIndex % DROP_RATIO_DENOM = 0) ∧
      ((List.replicate 32 5760).length ≤ DROP_RATIO_DENOM → softDrops trace ≤ 1) :=
  (soft_drop_rate 240 { stereo with m_PendingDrops := 4, m_SampleIndex := 4294967290 }
    (List.replicate 32 5760) (by decide)).2

/-! ## No counter operation wraps -/

/-- A 32-bit reading over a divisor of at least two bytes gives fewer than
`2^31` frames. -/
theorem framesQueuedOf_lt (spf : Nat) (r : SdlAudioRenderer) (q f : Nat)
    (hb : 2 ≤ bytesPerFrame spf r.m_ChannelCount) (hq : q < U32)
    (h : framesQueuedOf spf r q = some f) : f < 2147483648 := by
  unfold framesQueuedOf at h
  split_ifs at h with h0
  have hf : adjustQueued r q / bytesPerFrame spf r.m_ChannelCount = f := Option.some.inj h
  have h1 : adjustQueued r q ≤ q := by
    unfold adjustQueued
    split_ifs <;> omega
  have h2 : adjustQueued r q / bytesPerFrame spf r.m_ChannelCount ≤ adjustQueued r q / 2 :=
    Nat.div_le_div_left hb (by decide)
  simp only [U32] at hq
  omega

theorem schedule_bounds (r : SdlAudioRenderer) (f : Nat)
    (hpd : r.m_PendingDrops < 2147483648) (hphd : r.m_PendingHardDrops < 2147483648)
    (hf : f < 2147483648) :
    (schedule r f).m_PendingDrops < 2147483648 ∧
    (schedule r f).m_PendingHardDrops < 2147483648 ∧
    ∀ op ∈ scheduleOps r f, op.wraps = false := by
  refine ⟨?_, ?_, ?_⟩
  · unfold schedule
    simp only [sub32, add32, U32, MIN_QUEUED_FRAMES, STOP_THE_WORLD_LIMIT, MAX_QUEUED_FRAMES]
    split_ifs <;> (try dsimp only) <;> omega
  · unfold schedule
    simp only [sub32, add32, U32, MIN_QUEUED_FRAMES, STOP_THE_WORLD_LIMIT, MAX_QUEUED_FRAMES]
    split_ifs <;> (try dsimp only) <;> omega
  · unfold scheduleOps gracefulOps
    simp only [sub32, add32, U32, MIN_QUEUED_FRAMES, STOP_THE_WORLD_LIMIT, MAX_QUEUED_FRAMES]
    split_ifs <;>
      simp only [List.mem_cons, List.mem_singleton, List.not_mem_nil, forall_eq_or_imp, forall_eq,
        ArithOp.wraps, decide_eq_false_iff_not, U32, or_false, false_imp_iff, implies_true,
        and_true] <;>
      omega

theorem execute_bounds (r : SdlAudioRenderer)
    (hpd : r.m_PendingDrops < 2147483648) (hphd : r.m_PendingHardDrops < 2147483648) :
    (execute r).1.m_PendingDrops < 2147483648 ∧
    (execute r).1.m_PendingHardDrops < 2147483648 ∧
    ∀ op ∈ executeOps r, op.wraps = false := by
  refine ⟨?_, ?_, ?_⟩
  · unfold execute
    simp only [sub32, U32]
    split_ifs <;> (try dsimp only) <;> omega
  · unfold execute
    simp only [sub32, U32]
    split_ifs <;> (try dsimp only) <;> omega
  · unfold executeOps
    split_ifs <;>
      simp only [List.mem_cons, List.mem_singleton, List.not_mem_nil, forall_eq_or_imp, forall_eq,
        ArithOp.wraps, decide_eq_false_iff_not, or_false, false_imp_iff, implies_true,
        and_true] <;>
      omega

theorem submitAudioOps_of_frames (spf : Nat) (r : SdlAudioRenderer) (q f : Nat)
    (h : framesQueuedOf spf r q = some f) :
    submitAudioOps spf r q
      = scheduleOps (bumpSampleIndex r) f ++ executeOps (schedule (bumpSampleIndex r) f) := by
  have hb : framesQueuedOf spf (bumpSampleIndex r) q = some f := by
    rw [framesQueuedOf_congr spf r (bumpSampleIndex r) q rfl rfl]; exact h
  simp [submitAudioOps, hb]

/-- The counters stay below `2^31` along a run and no counter operation of the
run wraps. -/
theorem submitAll_no_wrap (spf : Nat) (readings : List Nat) :
    ∀ r : SdlAudioRenderer, 2 ≤ bytesPerFrame spf r.m_ChannelCount →
      r.m_PendingDrops < 2147483648 → r.m_PendingHardDrops < 2147483648 →
      (∀ q ∈ readings, q < U32) →
      ∃ trace, submitAll spf r readings = some trace ∧ trace.length = readings.length ∧
        (∀ op ∈ submitAllOps spf r readings, op.wraps = false) ∧
        (∀ e ∈ trace,
          e.1.m_PendingDrops < 2147483648 ∧ e.1.m_PendingHardDrops < 2147483648) := by
  induction readings with
  | nil =>
    intro r _ _ _ _
    exact ⟨[], rfl, rfl, by simp [submitAllOps], by simp⟩
  | cons q qs ih =>
    intro r hb hpd hphd h32
    have hne : bytesPerFrame spf r.m_ChannelCount ≠ 0 := by omega
    have hfq := framesQueuedOf_isSome spf r q hne
    generalize adjustQueued r q / bytesPerFrame spf r.m_ChannelCount = f at hfq
    have hf := framesQueuedOf_lt spf r q f hb (h32 q (List.mem_cons_self q qs)) hfq
    have hs := schedule_bounds (bumpSampleIndex r) f hpd hphd hf
    have he := execute_bounds (schedule (bumpSampleIndex r) f) hs.1 hs.2.1
    have hstep := submitAudio_of_frames spf r q f hfq
    have hcfg := submitFrames_config r f
    obtain ⟨rest, hrest, hlen, hops, hinv⟩ := ih (submitFrames r f).1
      (by rw [hcfg.1]; exact hb) he.1 he.2.1
      (fun a ha => h32 a (List.mem_cons_of_mem q ha))
    refine ⟨submitFrames r f :: rest, ?_, by simp [hlen], ?_, ?_⟩
    · simp only [submitAll, hstep, hrest]
    · intro op hop
      simp only [submitAllOps, hstep, submitAudioOps_of_frames spf r q f hfq,
        List.mem_append] at hop
      rcases hop with (h | h) | h
      · exact hs.2.2 op h
      · exact he.2.2 op h
      · exact hops op h
    · intro e hmem
      rcases List.mem_cons.mp hmem with h | h
      · rw [h]; exact ⟨he.1, he.2.1⟩
      · exact hinv e h

/-- When the divisor of line 166 is zero a run evaluates no counter operation
and only the empty run returns. -/
theorem submitAll_zero_divisor (spf : Nat) (r : SdlAudioRenderer) (readings : List Nat)
    (h0 : bytesPerFrame spf r.m_ChannelCount = 0) :
    submitAllOps spf r readings = [] ∧
    ∀ trace, submitAll spf r readings = some trace → trace = [] := by
  cases readings with
  | nil =>
    refine ⟨rfl, ?_⟩
    intro trace h
    exact (Option.some.inj h).symm
  | cons q qs =>
    have hnone := submitAudio_eq_none spf r q h0
    have hfq : framesQueuedOf spf (bumpSampleIndex r) q = none := by
      simp [framesQueuedOf, bumpSampleIndex, h0]
    constructor
    · simp [submitAllOps, submitAudioOps, hnone, hfq]
    · intro trace h
      simp [submitAll, hnone] at h

/-- C4 (no underflow): from a state with both counters zero and a channel
count of at least one, over any run of `submitAudio` calls with 32-bit
readings, none of the operations `framesQueued - m_PendingHardDrops`,
`framesQueued - m_PendingHardDrops - m_PendingDrops`,
`framesQueued - MIN_QUEUED_FRAMES`, `m_PendingHardDrops--`, `m_PendingDrops--`
and `m_PendingHardDrops + m_PendingDrops` that the run evaluates leaves the
32-bit range, and after every call both counters are exact integers below
`2^31`; every call of the run returns when the samples per frame are positive
and their product with the channel count fits 32 bits. -/
theorem no_counter_wrap (spf : Nat) (r : SdlAudioRenderer) (readings : List Nat)
    (hch : 1 ≤ r.m_ChannelCount)
    (hpd : r.m_PendingDrops = 0) (hphd : r.m_PendingHardDrops = 0)
    (h32 : ∀ q ∈ readings, q < U32) :
    (∀ op ∈ submitAllOps spf r readings, op.wraps = false) ∧
    (∀ trace, submitAll spf r readings = some trace →
      ∀ e ∈ trace,
        e.1.m_PendingDrops < 2147483648 ∧ e.1.m_PendingHardDrops < 2147483648) ∧
    (0 < spf → spf * r.m_ChannelCount < U32 →
      ∃ trace, submitAll spf r readings = some trace ∧ trace.length = readings.length) := by
  have hmain : 2 ≤ bytesPerFrame spf r.m_ChannelCount →
      ∃ trace, submitAll spf r readings = some trace ∧ trace.length = readings.length ∧
        (∀ op ∈ submitAllOps spf r readings, op.wraps = false) ∧
        (∀ e ∈ trace,
          e.1.m_PendingDrops < 2147483648 ∧ e.1.m_PendingHardDrops < 2147483648) :=
    fun hb => submitAll_no_wrap spf readings r hb (by omega) (by omega) h32
  refine ⟨?_, ?_, ?_⟩
  · by_cases h0 : bytesPerFrame spf r.m_ChannelCount = 0
    · intro op hop
      rw [(submitAll_zero_divisor spf r readings h0).1] at hop
      simp at hop
    · have hb : 2 ≤ bytesPerFrame spf r.m_ChannelCount := by
        unfold bytesPerFrame at h0 ⊢
        omega
      obtain ⟨_, _, _, hops, _⟩ := hmain hb
      exact hops
  · intro trace htrace
    by_cases h0 : bytesPerFrame spf r.m_ChannelCount = 0
    · rw [(submitAll_zero_divisor spf r readings h0).2 trace htrace]
      simp
    · have hb : 2 ≤ bytesPerFrame spf r.m_ChannelCount := by
        unfold bytesPerFrame at h0 ⊢
        omega
      obtain ⟨trace1, h1, _, _, hinv⟩ := hmain hb
      rw [h1] at htrace
      rw [← Option.some.inj htrace]
      exact hinv
  · intro hspf hprod
    have hb : 2 ≤ bytesPerFrame spf r.m_ChannelCount := by
      unfold bytesPerFrame
      rw [Nat.mod_eq_of_lt hprod]
      have : 0 < spf * r.m_ChannelCount := Nat.mul_pos hspf hch
      omega
    obtain ⟨trace, h1, h2, _, _⟩ := hmain hb
    exact ⟨trace, h1, h2⟩

/-- C4 on the prepared stereo controller over a run that schedules a hard
burst, re-arms it, recovers and then schedules soft drops. -/
theorem no_counter_wrap_witness :
    (∀ op ∈ submitAllOps 240 stereo [24000, 4294967295, 960, 5760, 0, 9600],
      op.wraps = false) ∧
    ∃ trace, submitAll 240 stereo [24000, 4294967295, 960, 5760, 0, 9600] = some trace ∧
      trace.length = [24000, 4294967295, 960, 5760, 0, 9600].length ∧
      ∀ e ∈ trace,
        e.1.m_PendingDrops < 2147483648 ∧ e.1.m_PendingHardDrops < 2147483648 := by
  have h := no_counter_wrap 240 stereo [24000, 4294967295, 960, 5760, 0, 9600]
    (by decide) rfl rfl (by decide)
  obtain ⟨trace, h1, h2⟩ := h.2.2 (by decide) (by decide)
  exact ⟨h.1, trace, h1, h2, h.2.1 trace h1⟩

end SdlAudio
